import Mathlib

/-!
Shallow embedding of catalyst exchange_utils (symbol cache, algo key/value
store, frequency parsing, OHLCV resampling) and proofs about it.

Python exceptions are modelled with Except PyError; the filesystem and the
network are modelled as explicit state passed to the embedded functions.
-/

namespace ExchangeUtils

/-- Errors raised by the embedded code: the two catalyst error classes
(ExchangeSymbolsNotFound, InvalidHistoryFrequencyError), plus the builtin
exception kinds the module can raise or catch (ValueError from int and from
resample_history_df, IOError, a non-IOError read failure such as a pandas
parser error, a urllib transport error, and TypeError from os.path.join on
None). -/
inductive PyError where
  | symbolsNotFound (exchange : String) (filename : String)
  | invalidHistoryFrequency (freq : String)
  | valueError (msg : String)
  | ioError
  | parserError
  | urlError
  | typeError
deriving DecidableEq, Repr

/-! ## Frequency parsing: get_frequency -/

/-- Test for the regex character class [0-9] (ASCII digits only). -/
def isDigitChar (c : Char) : Bool :=
  48 ≤ c.toNat && c.toNat ≤ 57

/-- Test for the regex alternation (m|M|d|D). -/
def isUnitChar (c : Char) : Bool :=
  c = 'm' || c = 'M' || c = 'd' || c = 'D'

/-- Split a character list at its LAST unit letter: returns the prefix
before that letter and the letter itself.  This realises the greedy
backtracking of the regex group ([0-9].*) followed by (m|M|d|D): the dot-star
is maximal, so the unit group binds at the last possible position. -/
def lastUnitSplit : List Char → Option (List Char × Char)
  | [] => none
  | c :: rest =>
    match lastUnitSplit rest with
    | some (pre, u) => some (c :: pre, u)
    | none => if isUnitChar c then some ([], c) else none

/-- Embedding of re.match applied to the pattern ([0-9].*)(m|M|d|D) with
flags re.M and re.I.  re.match anchors at the start only: the input must
begin with an ASCII digit, and a unit letter must occur later on the first
line (the dot does not cross a newline); anything after the matched unit
letter is ignored since the pattern has no end anchor.  Returns group 1 and
group 2 on success.  re.M is irrelevant (no caret or dollar in the pattern)
and re.I only affects the unit letters, which already list both cases. -/
def freqRegexMatch (l : List Char) : Option (List Char × Char) :=
  match l with
  | [] => none
  | c :: rest =>
    if isDigitChar c then
      match lastUnitSplit (rest.takeWhile (fun x => x ≠ '\n')) with
      | some (pre, u) => some (c :: pre, u)
      | none => none
    else none

/-- Characters the Python int constructor strips from both ends. -/
def isPySpace (c : Char) : Bool :=
  c = ' ' || c = '\t' || c = '\n' || c = '\r' || c = '\x0b' || c = '\x0c'

/-- Strip leading and trailing whitespace, as int(str) does. -/
def stripChars (l : List Char) : List Char :=
  ((l.dropWhile isPySpace).reverse.dropWhile isPySpace).reverse

/-- Validity of the digit body of a Python integer literal: ASCII digits
with single underscores allowed only between digits.  The boolean argument
records whether the previous character was a digit. -/
def underscoreDigitsOk : List Char → Bool → Bool
  | [], prev => prev
  | c :: rest, prev =>
    if isDigitChar c then underscoreDigitsOk rest true
    else if c = '_' then prev && underscoreDigitsOk rest false
    else false

/-- One step of base-10 accumulation; underscores are skipped. -/
def digitStep (acc : Int) (c : Char) : Int :=
  if c = '_' then acc else acc * 10 + ((c.toNat : Int) - 48)

/-- Base-10 value of a digit body, skipping underscores. -/
def digitsVal (l : List Char) : Int :=
  l.foldl digitStep 0

/-- Body of the Python int constructor after whitespace stripping: one
optional sign, then a well-formed digit body; ValueError otherwise. -/
def pyIntAfterStrip : List Char → Except PyError Int
  | [] => Except.error (PyError.valueError "invalid literal for int")
  | c :: rest =>
    if c = '+' then
      if underscoreDigitsOk rest false then Except.ok (digitsVal rest)
      else Except.error (PyError.valueError "invalid literal for int")
    else if c = '-' then
      if underscoreDigitsOk rest false then Except.ok (-(digitsVal rest))
      else Except.error (PyError.valueError "invalid literal for int")
    else
      if underscoreDigitsOk (c :: rest) false then Except.ok (digitsVal (c :: rest))
      else Except.error (PyError.valueError "invalid literal for int")

/-- Embedding of the Python int constructor on a string (ASCII numerals):
strip whitespace, then parse an optionally signed digit body. -/
def pyIntParse (l : List Char) : Except PyError Int :=
  pyIntAfterStrip (stripChars l)

/-- Alias normalisation at the top of get_frequency: the string daily
becomes 1d and the string minute becomes 1m. -/
def normalizeAlias (freq : String) : String :=
  if freq = "daily" then "1d" else if freq = "minute" then "1m" else freq

/-- Embedding of get_frequency(freq, data_frequency).  Mirrors the source:
normalise aliases, match the regex, convert group 1 with int (a ValueError
from int propagates uncaught), then adjust data_frequency according to the
lower-cased unit letter; a unit outside d and m raises
InvalidHistoryFrequencyError (defensive dead branch). -/
def get_frequency (freq : String) (data_frequency : String) :
    Except PyError (Int × Char × String) :=
  match freqRegexMatch (normalizeAlias freq).toList with
  | none => Except.error (PyError.invalidHistoryFrequency (normalizeAlias freq))
  | some (g1, unit) =>
    match pyIntParse g1 with
    | Except.error e => Except.error e
    | Except.ok candle_size =>
      if unit.toLower = 'd' then
        Except.ok (candle_size, unit,
          if data_frequency = "minute" then "daily" else data_frequency)
      else if unit.toLower = 'm' then
        Except.ok (candle_size, unit,
          if data_frequency = "daily" then "minute" else data_frequency)
      else Except.error (PyError.invalidHistoryFrequency (normalizeAlias freq))

/-- The frequency pattern as the specification states it: one or more
digits followed by exactly one unit letter, nothing after it. -/
def specFreqPattern (s : String) : Bool :=
  match s.toList.getLast? with
  | some u => isUnitChar u && !s.toList.dropLast.isEmpty
      && s.toList.dropLast.all isDigitChar
  | none => false

/-! ## Resampling: resample_history_df

A single-field, time-indexed pandas DataFrame is modelled as a list of
(timestamp, value) rows, timestamps in minutes and ordered by time. -/

/-- One OHLCV field series: rows of (timestamp in minutes, value). -/
abbrev DataFrame : Type := List (Nat × Int)

/-- The empty pandas DataFrame, pd.DataFrame(). -/
def DataFrame.empty : DataFrame := []

/-- Prepend one value with bucket index k onto a bucket-run list: it joins
the first run when the indices agree and opens a new run otherwise. -/
def insertBucket (k : Nat) (v : Int) : List (Nat × List Int) → List (Nat × List Int)
  | [] => [(k, [v])]
  | (k0, vs) :: gs =>
    if k = k0 then (k0, v :: vs) :: gs
    else (k, [v]) :: (k0, vs) :: gs

/-- Group a time-ordered row list into runs of equal bucket index, where the
bucket index of timestamp t for an n-minute bin is t / n (bins anchored at
the index origin).  Returns (bucket index, values of the run in time order);
empty bins are not materialised. -/
def groupByBucket (n : Nat) : List (Nat × Int) → List (Nat × List Int)
  | [] => []
  | (t, v) :: rest => insertBucket (t / n) v (groupByBucket n rest)

/-- Maximum of a value list (meaningful for nonempty lists). -/
def listMax : List Int → Int
  | [] => 0
  | [v] => v
  | v :: w :: rest => max v (listMax (w :: rest))

/-- Minimum of a value list (meaningful for nonempty lists). -/
def listMin : List Int → Int
  | [] => 0
  | [v] => v
  | v :: w :: rest => min v (listMin (w :: rest))

/-- The pandas aggregation functions used by resample_history_df, keyed by
the aggregation name the source selects: first, max, min, last, sum. -/
def aggList (agg : String) (vs : List Int) : Int :=
  if agg = "first" then vs.headD 0
  else if agg = "max" then listMax vs
  else if agg = "min" then listMin vs
  else if agg = "last" then vs.getLastD 0
  else vs.sum

/-- Embedding of df.resample(nT).agg(agg): bucket the rows into n-minute
bins and reduce each nonempty bin with the aggregation; the output row is
indexed by the left edge of its bin. -/
def pdResample (df : DataFrame) (n : Nat) (agg : String) : DataFrame :=
  (groupByBucket n df).map (fun g => (g.1 * n, aggList agg g.2))

/-- Embedding of resample_history_df(df, candle_size, field): when
candle_size exceeds 1, select the aggregation for the field (an unknown
field raises ValueError) and resample; otherwise return df unchanged. -/
def resample_history_df (df : DataFrame) (candle_size : Nat) (field : String) :
    Except PyError DataFrame :=
  if candle_size > 1 then
    match (if field = "open" then Except.ok "first"
           else if field = "high" then Except.ok "max"
           else if field = "low" then Except.ok "min"
           else if field = "close" then Except.ok "last"
           else if field = "volume" then Except.ok "sum"
           else Except.error (PyError.valueError "Invalid field.")) with
    | Except.error e => Except.error e
    | Except.ok agg => Except.ok (pdResample df candle_size agg)
  else
    Except.ok df

/-- Specification-side view of a bucket: the values of all rows whose
timestamp falls into bin k of width c, in time order. -/
def bucketMembers (df : DataFrame) (c : Nat) (k : Nat) : List Int :=
  match df with
  | [] => []
  | (t, v) :: rest =>
    if t / c = k then v :: bucketMembers rest c k else bucketMembers rest c k

/-! ## Symbol cache: get_exchange_symbols

The filesystem slot for one symbols.json file and the network are modelled
as explicit state: the cached content if the file exists, its age (now
minus mtime) in seconds, and the outcome a download attempt would have. -/

/-- State seen by get_exchange_symbols: the cache file content when
present, its age in seconds, and the remote fetch outcome (the content the
endpoint would serve, or a transport error). -/
structure SymbolsFs where
  file : Option String
  ageSeconds : Int
  download : Except Unit String

/-- The days component of a pandas Timedelta of the given seconds: floor
division by 86400 (floored toward minus infinity, as in Python). -/
def timedeltaDays (seconds : Int) : Int :=
  Int.fdiv seconds 86400

/-- Embedding of get_exchange_folder: root/exchanges/name (the directory is
created as a side effect, which the model elides). -/
def get_exchange_folder (root : String) (exchange_name : String) : String :=
  root ++ "/exchanges/" ++ exchange_name

/-- Embedding of get_exchange_symbols_filename. -/
def get_exchange_symbols_filename (root : String) (exchange_name : String) : String :=
  get_exchange_folder root exchange_name ++ "/symbols.json"

/-- The condition of the source, not os.path.isfile(filename) or
pd.Timedelta(now - mtime).days > 1, under which a download is attempted. -/
def needsDownload (fs : SymbolsFs) : Bool :=
  fs.file.isNone || timedeltaDays fs.ageSeconds > 1

/-- Embedding of download_exchange_symbols: urlretrieve writes the response
body to the cache file (resetting its mtime); a transport failure raises and
leaves the state unchanged. -/
def download_exchange_symbols (fs : SymbolsFs) : Except PyError SymbolsFs :=
  match fs.download with
  | Except.error _ => Except.error PyError.urlError
  | Except.ok content => Except.ok { fs with file := some content, ageSeconds := 0 }

/-- Embedding of get_exchange_symbols: download when the file is missing or
its Timedelta days component exceeds 1 (an exception from the download
propagates); then return the parsed file content if the file exists, else
raise ExchangeSymbolsNotFound with the exchange name and the expected path.
The json.load step is modelled as returning the (opaque) file content. -/
def get_exchange_symbols (root : String) (exchange_name : String) (fs : SymbolsFs) :
    Except PyError String :=
  let filename := get_exchange_symbols_filename root exchange_name
  match (if needsDownload fs then download_exchange_symbols fs else Except.ok fs) with
  | Except.error e => Except.error e
  | Except.ok fs2 =>
    match fs2.file with
    | some content => Except.ok content
    | none => Except.error (PyError.symbolsNotFound exchange_name filename)

/-! ## Algo key/value store: get_algo_object and get_algo_df

A read from a backing file has four outcomes: the file is missing, the read
and deserialisation succeed with a value, the read raises IOError, or it
raises some other exception (for example a pandas parser error, which is not
an IOError).  The filesystem is a map from filename to outcome. -/

/-- Outcome of opening and deserialising one backing file. -/
inductive ReadOutcome (α : Type) where
  | missing
  | ok (v : α)
  | ioError
  | otherError
deriving DecidableEq

/-- Embedding of get_algo_folder: os.path.join(root, live_algos, algo_name).
Passing None for algo_name makes os.path.join raise a TypeError. -/
def get_algo_folder (root : String) (algo_name : Option String) :
    Except PyError String :=
  match algo_name with
  | none => Except.error PyError.typeError
  | some name => Except.ok (root ++ "/live_algos/" ++ name)

/-- Last part of get_algo_object: the isfile check plus the try block
around open and pickle.load, whose except clause catches Exception (every
failure): a missing file and every read failure yield None. -/
def objectReadResult {α : Type} (o : ReadOutcome α) : Except PyError (Option α) :=
  match o with
  | ReadOutcome.missing => Except.ok none
  | ReadOutcome.ok v => Except.ok (some v)
  | ReadOutcome.ioError => Except.ok none
  | ReadOutcome.otherError => Except.ok none

/-- Last part of get_algo_df: the isfile check plus the try block around
open and pd.read_csv, whose except clause catches IOError only: a missing
file or an IOError yields the empty DataFrame, while any other exception
(such as a pandas parser error) propagates. -/
def dfReadResult (o : ReadOutcome DataFrame) : Except PyError DataFrame :=
  match o with
  | ReadOutcome.missing => Except.ok DataFrame.empty
  | ReadOutcome.ok v => Except.ok v
  | ReadOutcome.ioError => Except.ok DataFrame.empty
  | ReadOutcome.otherError => Except.error PyError.parserError

/-- Embedding of get_algo_object: None algo_name short-circuits to None
before any filesystem access; otherwise the pickle file key.p under the algo
folder (plus optional rel_path) is read, with every exception from the read
swallowed to None and a missing file yielding None. -/
def get_algo_object {α : Type} (root : String) (fsRead : String → ReadOutcome α)
    (algo_name : Option String) (key : String) (rel_path : Option String) :
    Except PyError (Option α) :=
  match algo_name with
  | none => Except.ok none
  | some _ =>
    match get_algo_folder root algo_name with
    | Except.error e => Except.error e
    | Except.ok folder =>
      let folder := match rel_path with
        | some rp => folder ++ "/" ++ rp
        | none => folder
      let filename := folder ++ "/" ++ key ++ ".p"
      objectReadResult (fsRead filename)

/-- Embedding of get_algo_df: no None guard on algo_name; the csv file
key.csv is read with pd.read_csv, a missing file or an IOError yields the
empty DataFrame, and any non-IOError exception propagates. -/
def get_algo_df (root : String) (fsRead : String → ReadOutcome DataFrame)
    (algo_name : Option String) (key : String) (rel_path : Option String) :
    Except PyError DataFrame :=
  match get_algo_folder root algo_name with
  | Except.error e => Except.error e
  | Except.ok folder =>
    let folder := match rel_path with
      | some rp => folder ++ "/" ++ rp
      | none => folder
    let filename := folder ++ "/" ++ key ++ ".csv"
    dfReadResult (fsRead filename)

/-! ## Lemmas about the frequency parser -/

/-- The unit letter reported by lastUnitSplit is a unit letter. -/
theorem lastUnitSplit_isUnit :
    ∀ (l : List Char) (pre : List Char) (u : Char),
      lastUnitSplit l = some (pre, u) → isUnitChar u = true := by
  intro l
  induction l with
  | nil => intro pre u h; simp [lastUnitSplit] at h
  | cons c rest ih =>
    intro pre u h
    simp only [lastUnitSplit] at h
    cases hr : lastUnitSplit rest with
    | some pu =>
      obtain ⟨pre0, u0⟩ := pu
      rw [hr] at h
      simp only [Option.some.injEq, Prod.mk.injEq] at h
      exact h.2 ▸ ih pre0 u0 hr
    | none =>
      rw [hr] at h
      by_cases hc : isUnitChar c
      · simp only [hc, if_true, Option.some.injEq, Prod.mk.injEq] at h
        exact h.2 ▸ hc
      · simp [hc] at h

/-- The unit letter of a successful regex match is a unit letter. -/
theorem freqRegexMatch_isUnit {l g1 : List Char} {u : Char}
    (h : freqRegexMatch l = some (g1, u)) : isUnitChar u = true := by
  cases l with
  | nil => simp [freqRegexMatch] at h
  | cons c rest =>
    simp only [freqRegexMatch] at h
    by_cases hc : isDigitChar c
    · rw [if_pos hc] at h
      cases hs : lastUnitSplit (rest.takeWhile (fun x => x ≠ '\n')) with
      | some pu =>
        obtain ⟨pre, u0⟩ := pu
        rw [hs] at h
        simp only [Option.some.injEq, Prod.mk.injEq] at h
        exact h.2 ▸ lastUnitSplit_isUnit _ pre u0 hs
      | none => rw [hs] at h; exact absurd h (by simp)
    · rw [if_neg hc] at h; exact absurd h (by simp)

/-- Group 1 of a successful regex match starts with the matched digit. -/
theorem freqRegexMatch_head {l g1 : List Char} {u : Char}
    (h : freqRegexMatch l = some (g1, u)) :
    ∃ c t, g1 = c :: t ∧ isDigitChar c = true := by
  cases l with
  | nil => simp [freqRegexMatch] at h
  | cons c rest =>
    simp only [freqRegexMatch] at h
    by_cases hc : isDigitChar c
    · rw [if_pos hc] at h
      cases hs : lastUnitSplit (rest.takeWhile (fun x => x ≠ '\n')) with
      | some pu =>
        obtain ⟨pre, u0⟩ := pu
        rw [hs] at h
        simp only [Option.some.injEq, Prod.mk.injEq] at h
        exact ⟨c, pre, h.1.symm, hc⟩
      | none => rw [hs] at h; exact absurd h (by simp)
    · rw [if_neg hc] at h; exact absurd h (by simp)

/-- A digit character is not Python whitespace. -/
theorem isDigitChar_not_space {c : Char} (h : isDigitChar c = true) :
    isPySpace c = false := by
  cases hs : isPySpace c
  · rfl
  · exfalso
    have hv : c = ' ' ∨ c = '\t' ∨ c = '\n' ∨ c = '\r' ∨ c = '\x0b' ∨ c = '\x0c' := by
      simpa [isPySpace, or_assoc] using hs
    rcases hv with h1 | h1 | h1 | h1 | h1 | h1 <;> subst h1 <;>
      exact absurd h (by decide)

/-- A digit character is neither a plus nor a minus sign. -/
theorem isDigitChar_ne_sign {c : Char} (h : isDigitChar c = true) :
    c ≠ '+' ∧ c ≠ '-' := by
  constructor <;> intro h1 <;> subst h1 <;> exact absurd h (by decide)

/-- Dropping a prefix from a list whose last element fails the predicate
keeps that last element in place. -/
theorem dropWhile_append_last {p : Char → Bool} {c : Char} (hc : p c = false) :
    ∀ xs : List Char, ∃ ys, List.dropWhile p (xs ++ [c]) = ys ++ [c] := by
  intro xs
  induction xs with
  | nil => exact ⟨[], by simp [List.dropWhile, hc]⟩
  | cons a xs ih =>
    by_cases ha : p a
    · obtain ⟨ys, hys⟩ := ih
      exact ⟨ys, by simp [List.dropWhile_cons, ha, hys]⟩
    · exact ⟨a :: xs, by simp [List.dropWhile_cons, ha]⟩

/-- Stripping whitespace from a list headed by a non-space character keeps
that head. -/
theorem stripChars_cons_head {c : Char} {t : List Char}
    (hc : isPySpace c = false) : ∃ t2, stripChars (c :: t) = c :: t2 := by
  have h1 : List.dropWhile isPySpace (c :: t) = c :: t := by
    simp [List.dropWhile_cons, hc]
  obtain ⟨ys, hys⟩ := dropWhile_append_last hc t.reverse
  refine ⟨ys.reverse, ?_⟩
  unfold stripChars
  rw [h1, List.reverse_cons, hys, List.reverse_append]
  simp

/-- Folding the digit accumulator over a valid digit body from a
nonnegative accumulator stays nonnegative. -/
theorem foldl_digits_nonneg :
    ∀ (l : List Char) (prev : Bool), underscoreDigitsOk l prev = true →
      ∀ acc : Int, 0 ≤ acc → 0 ≤ List.foldl digitStep acc l := by
  intro l
  induction l with
  | nil => intro prev _ acc hacc; simpa using hacc
  | cons c rest ih =>
    intro prev h acc hacc
    simp only [underscoreDigitsOk] at h
    by_cases hd : isDigitChar c
    · rw [if_pos hd] at h
      have hc : ¬(c = '_') := by intro e; subst e; exact absurd hd (by decide)
      have hstep : (0 : Int) ≤ digitStep acc c := by
        unfold digitStep
        rw [if_neg hc]
        have h48 : (48 : Int) ≤ (c.toNat : Int) := by
          simp only [isDigitChar, Bool.and_eq_true, decide_eq_true_eq] at hd
          exact_mod_cast hd.1
        have : (0 : Int) ≤ acc * 10 := by positivity
        omega
      simpa [List.foldl_cons] using ih true h _ hstep
    · rw [if_neg hd] at h
      by_cases hu : c = '_'
      · rw [if_pos hu] at h
        have h2 : underscoreDigitsOk rest false = true :=
          ((Bool.and_eq_true _ _).mp h).2
        have hstep : digitStep acc c = acc := by unfold digitStep; rw [if_pos hu]
        simpa [List.foldl_cons, hstep] using ih false h2 acc hacc
      · rw [if_neg hu] at h; exact absurd h (by simp)

/-- A successful int conversion of a digit-headed character list is
nonnegative (a sign cannot occur after a leading digit). -/
theorem pyIntParse_digit_head_nonneg {c : Char} {t : List Char} {n : Int}
    (hc : isDigitChar c = true) (h : pyIntParse (c :: t) = Except.ok n) :
    0 ≤ n := by
  obtain ⟨t2, hst⟩ := stripChars_cons_head (isDigitChar_not_space hc)
  unfold pyIntParse at h
  rw [hst] at h
  obtain ⟨hplus, hminus⟩ := isDigitChar_ne_sign hc
  simp only [pyIntAfterStrip, if_neg hplus, if_neg hminus] at h
  by_cases hok : underscoreDigitsOk (c :: t2) false
  · rw [if_pos hok] at h
    have hval : digitsVal (c :: t2) = n := by
      simpa using congrArg (fun x => x.toOption.getD 0) h
    exact hval ▸ foldl_digits_nonneg (c :: t2) false hok 0 le_rfl
  · rw [if_neg hok] at h; exact absurd h (by simp)

/-- Every error produced by the int conversion is the ValueError, never a
catalyst error class. -/
theorem pyIntParse_error_shape {l : List Char} {e : PyError}
    (h : pyIntParse l = Except.error e) :
    e = PyError.valueError "invalid literal for int" := by
  unfold pyIntParse pyIntAfterStrip at h
  split at h
  · simp_all
  · split at h
    · split at h <;> simp_all
    · split at h
      · split at h <;> simp_all
      · split at h <;> simp_all

/-- The lower-cased unit letter of a regex match is d or m. -/
theorem isUnitChar_toLower {u : Char} (h : isUnitChar u = true) :
    u.toLower = 'd' ∨ u.toLower = 'm' := by
  have hv : u = 'm' ∨ u = 'M' ∨ u = 'd' ∨ u = 'D' := by
    simpa [isUnitChar, or_assoc] using h
  rcases hv with h1 | h1 | h1 | h1 <;> subst h1
  · right; decide
  · right; decide
  · left; decide
  · left; decide

/-! ## Lemmas about resampling -/

/-- A nonempty bucket has a witness row in the table. -/
theorem bucketMembers_ne_nil {df : DataFrame} {c k : Nat}
    (h : bucketMembers df c k ≠ []) :
    ∃ p : Nat × Int, p ∈ df ∧ p.1 / c = k := by
  induction df with
  | nil => simp [bucketMembers] at h
  | cons q rest ih =>
    obtain ⟨t, v⟩ := q
    by_cases ht : t / c = k
    · exact ⟨(t, v), List.mem_cons_self _ _, ht⟩
    · simp only [bucketMembers, if_neg ht] at h
      obtain ⟨p, hp, hk⟩ := ih h
      exact ⟨p, List.mem_cons_of_mem _ hp, hk⟩

/-- A bucket no row falls into is empty. -/
theorem bucketMembers_eq_nil {df : DataFrame} {c k : Nat}
    (h : ∀ p : Nat × Int, p ∈ df → p.1 / c ≠ k) : bucketMembers df c k = [] := by
  induction df with
  | nil => rfl
  | cons q rest ih =>
    obtain ⟨t, v⟩ := q
    have ht : t / c ≠ k := h (t, v) (List.mem_cons_self _ _)
    simp only [bucketMembers, if_neg ht]
    exact ih (fun p hp => h p (List.mem_cons_of_mem _ hp))

/-- Soundness of the consecutive-run grouping against the bucket
semantics: on a table sorted by timestamp, the produced runs have strictly
increasing bucket indices, each run carries exactly the values of its
bucket (and is nonempty), and every row has a run for its bucket. -/
theorem groupByBucket_sound (c : Nat) :
    ∀ df : List (Nat × Int),
      List.Pairwise (fun a b => a.1 ≤ b.1) df →
      List.Pairwise (fun g h => g.1 < h.1) (groupByBucket c df) ∧
      (∀ g ∈ groupByBucket c df, g.2 = bucketMembers df c g.1 ∧ g.2 ≠ []) ∧
      (∀ p ∈ df, ∃ g ∈ groupByBucket c df, g.1 = p.1 / c) := by
  intro df
  induction df with
  | nil =>
    intro _
    refine ⟨List.Pairwise.nil, ?_, ?_⟩ <;> simp [groupByBucket]
  | cons q rest ih =>
    intro hp
    obtain ⟨t, v⟩ := q
    rw [List.pairwise_cons] at hp
    obtain ⟨hle, hrest⟩ := hp
    obtain ⟨ih1, ih2, ih3⟩ := ih hrest
    have hkey : ∀ g ∈ groupByBucket c rest, t / c ≤ g.1 := by
      intro g hg
      obtain ⟨hmem, hne⟩ := ih2 g hg
      obtain ⟨p, hpmem, hpk⟩ := bucketMembers_ne_nil (hmem ▸ hne)
      calc t / c ≤ p.1 / c := Nat.div_le_div_right (hle p hpmem)
        _ = g.1 := hpk
    have hstep : groupByBucket c ((t, v) :: rest) =
        insertBucket (t / c) v (groupByBucket c rest) := rfl
    cases hgb : groupByBucket c rest with
    | nil =>
      have hrnil : rest = [] := by
        cases rest with
        | nil => rfl
        | cons r rs =>
          exfalso
          obtain ⟨t2, v2⟩ := r
          have : insertBucket (t2 / c) v2 (groupByBucket c rs) = [] := hgb
          cases hgb2 : groupByBucket c rs with
          | nil => rw [hgb2] at this; simp [insertBucket] at this
          | cons g0 gs =>
            obtain ⟨k0, vs0⟩ := g0
            rw [hgb2] at this
            by_cases he : t2 / c = k0
            · simp [insertBucket, if_pos he] at this
            · simp [insertBucket, if_neg he] at this
      subst hrnil
      rw [hstep, hgb]
      refine ⟨?_, ?_, ?_⟩
      · simp [insertBucket]
      · intro g hg
        simp only [insertBucket, List.mem_singleton] at hg
        subst hg
        constructor
        · simp [bucketMembers]
        · simp
      · intro p hp2
        have hpv : p = (t, v) := by simpa using hp2
        subst hpv
        exact ⟨(t / c, [v]), by simp [insertBucket], rfl⟩
    | cons g0 gs =>
      obtain ⟨k0, vs0⟩ := g0
      have hk0 : t / c ≤ k0 := hkey (k0, vs0) (by rw [hgb]; exact List.mem_cons_self _ _)
      have hgs : ∀ g ∈ gs, k0 < g.1 := by
        intro g hg
        rw [hgb, List.pairwise_cons] at ih1
        exact ih1.1 g hg
      have hgsPW : List.Pairwise (fun g h => g.1 < h.1) gs := by
        rw [hgb, List.pairwise_cons] at ih1
        exact ih1.2
      by_cases htk : t / c = k0
      · -- the new row joins the first run
        have hres : groupByBucket c ((t, v) :: rest) = (k0, v :: vs0) :: gs := by
          rw [hstep, hgb]
          simp [insertBucket, if_pos htk]
        rw [hres]
        refine ⟨?_, ?_, ?_⟩
        · rw [List.pairwise_cons]
          exact ⟨fun g hg => hgs g hg, hgsPW⟩
        · intro g hg
          rcases List.mem_cons.mp hg with hghead | hgtail
          · subst hghead
            have hm0 : vs0 = bucketMembers rest c k0 :=
              (ih2 (k0, vs0) (by rw [hgb]; exact List.mem_cons_self _ _)).1
            constructor
            · show v :: vs0 = bucketMembers ((t, v) :: rest) c k0
              simp only [bucketMembers, if_pos htk]
              rw [hm0]
            · simp
          · have hne : t / c ≠ g.1 := by
              have := hgs g hgtail
              omega
            have hold := ih2 g (by rw [hgb]; exact List.mem_cons_of_mem _ hgtail)
            constructor
            · rw [hold.1]
              show bucketMembers rest c g.1 = bucketMembers ((t, v) :: rest) c g.1
              simp only [bucketMembers, if_neg hne]
            · exact hold.2
        · intro p hp2
          rcases List.mem_cons.mp hp2 with hphead | hptail
          · subst hphead
            exact ⟨(k0, v :: vs0), List.mem_cons_self _ _, htk.symm⟩
          · obtain ⟨g, hg, hgk⟩ := ih3 p hptail
            rw [hgb] at hg
            rcases List.mem_cons.mp hg with hghead | hgtail
            · subst hghead
              exact ⟨(k0, v :: vs0), List.mem_cons_self _ _, hgk⟩
            · exact ⟨g, List.mem_cons_of_mem _ hgtail, hgk⟩
      · -- the new row opens a new run in front
        have htlt : t / c < k0 := lt_of_le_of_ne hk0 htk
        have hres : groupByBucket c ((t, v) :: rest) =
            (t / c, [v]) :: (k0, vs0) :: gs := by
          rw [hstep, hgb]
          simp [insertBucket, if_neg htk]
        have hnewEmpty : bucketMembers rest c (t / c) = [] := by
          apply bucketMembers_eq_nil
          intro p hpmem
          obtain ⟨g, hg, hgk⟩ := ih3 p hpmem
          rw [hgb] at hg
          rcases List.mem_cons.mp hg with hghead | hgtail
          · subst hghead; omega
          · have := hgs g hgtail; omega
        rw [hres]
        refine ⟨?_, ?_, ?_⟩
        · rw [List.pairwise_cons]
          constructor
          · intro g hg
            rcases List.mem_cons.mp hg with hghead | hgtail
            · subst hghead; exact htlt
            · exact lt_trans htlt (hgs g hgtail)
          · rw [List.pairwise_cons]
            exact ⟨fun g hg => hgs g hg, hgsPW⟩
        · intro g hg
          rcases List.mem_cons.mp hg with hghead | hgtail
          · subst hghead
            constructor
            · show [v] = bucketMembers ((t, v) :: rest) c (t / c)
              simp [bucketMembers, hnewEmpty]
            · simp
          · have hkge : k0 ≤ g.1 := by
              rcases List.mem_cons.mp hgtail with hghead2 | hgtail2
              · subst hghead2; rfl
              · exact le_of_lt (hgs g hgtail2)
            have hne : t / c ≠ g.1 := by omega
            have hold := ih2 g (by rw [hgb]; exact hgtail)
            constructor
            · rw [hold.1]
              show bucketMembers rest c g.1 = bucketMembers ((t, v) :: rest) c g.1
              simp only [bucketMembers, if_neg hne]
            · exact hold.2
        · intro p hp2
          rcases List.mem_cons.mp hp2 with hphead | hptail
          · subst hphead
            exact ⟨(t / c, [v]), List.mem_cons_self _ _, rfl⟩
          · obtain ⟨g, hg, hgk⟩ := ih3 p hptail
            rw [hgb] at hg
            exact ⟨g, List.mem_cons_of_mem _ hg, hgk⟩

/-- The maximum of a nonempty value list belongs to it and bounds it. -/
theorem listMax_spec :
    ∀ vs : List Int, vs ≠ [] →
      listMax vs ∈ vs ∧ ∀ x ∈ vs, x ≤ listMax vs := by
  intro vs
  induction vs with
  | nil => intro h; exact absurd rfl h
  | cons v rest ih =>
    intro _
    cases rest with
    | nil =>
      constructor
      · simp [listMax]
      · intro x hx
        have : x = v := by simpa using hx
        subst this
        simp [listMax]
    | cons w rs =>
      obtain ⟨ihmem, ihbound⟩ := ih (by simp)
      have hunfold : listMax (v :: w :: rs) = max v (listMax (w :: rs)) := rfl
      constructor
      · rw [hunfold]
        rcases le_total v (listMax (w :: rs)) with hle | hge
        · rw [max_eq_right hle]
          exact List.mem_cons_of_mem _ ihmem
        · rw [max_eq_left hge]
          exact List.mem_cons_self _ _
      · intro x hx
        rw [hunfold]
        rcases List.mem_cons.mp hx with hxv | hxtail
        · subst hxv; exact le_max_left _ _
        · exact le_trans (ihbound x hxtail) (le_max_right _ _)

/-- The minimum of a nonempty value list belongs to it and lower-bounds
it. -/
theorem listMin_spec :
    ∀ vs : List Int, vs ≠ [] →
      listMin vs ∈ vs ∧ ∀ x ∈ vs, listMin vs ≤ x := by
  intro vs
  induction vs with
  | nil => intro h; exact absurd rfl h
  | cons v rest ih =>
    intro _
    cases rest with
    | nil =>
      constructor
      · simp [listMin]
      · intro x hx
        have : x = v := by simpa using hx
        subst this
        simp [listMin]
    | cons w rs =>
      obtain ⟨ihmem, ihbound⟩ := ih (by simp)
      have hunfold : listMin (v :: w :: rs) = min v (listMin (w :: rs)) := rfl
      constructor
      · rw [hunfold]
        rcases le_total v (listMin (w :: rs)) with hle | hge
        · rw [min_eq_left hle]
          exact List.mem_cons_self _ _
        · rw [min_eq_right hge]
          exact List.mem_cons_of_mem _ ihmem
      · intro x hx
        rw [hunfold]
        rcases List.mem_cons.mp hx with hxv | hxtail
        · subst hxv; exact min_le_left _ _
        · exact le_trans (min_le_right _ _) (ihbound x hxtail)

/-! ## Claim theorems for the frequency parser -/

/-- C2 counterexample: the input 5mx does not match the pattern of the
specification (digits then exactly one trailing unit letter), yet
get_frequency parses it successfully instead of raising InvalidFrequency,
because the regex of the source has no end anchor. -/
theorem get_frequency_trailing_text_accepted :
    specFreqPattern "5mx" = false ∧
      get_frequency "5mx" "minute" = Except.ok (5, 'm', "minute") :=
  ⟨rfl, rfl⟩

/-- C2 (amended): after alias normalisation, get_frequency raises
InvalidHistoryFrequencyError carrying the normalised expression exactly when
the anchored-prefix regex of the source fails: the expression must begin
with a digit and contain a unit letter (m, M, d or D) later on its first
line.  Expressions matching this laxer pattern never raise InvalidFrequency:
they parse successfully (trailing text ignored) or raise a ValueError from
the int conversion of group 1. -/
theorem get_frequency_invalid_iff (freq data_frequency : String) :
    get_frequency freq data_frequency =
        Except.error (PyError.invalidHistoryFrequency (normalizeAlias freq)) ↔
      freqRegexMatch (normalizeAlias freq).toList = none := by
  constructor
  · intro h
    unfold get_frequency at h
    split at h
    · rename_i heq; exact heq
    · rename_i g1 u2 heq
      exfalso
      have hu := freqRegexMatch_isUnit heq
      split at h
      · rename_i e hp
        have he := pyIntParse_error_shape hp
        rw [he] at h
        simp at h
      · rename_i n hp
        rcases isUnitChar_toLower hu with hd | hm2
        · rw [if_pos hd] at h; simp at h
        · by_cases hd : u2.toLower = 'd'
          · rw [if_pos hd] at h; simp at h
          · rw [if_neg hd, if_pos hm2] at h; simp at h
  · intro h
    unfold get_frequency
    rw [h]

/-- C2 witness: the expression abc fails the regex and is rejected with
InvalidFrequency. -/
theorem get_frequency_invalid_iff_witness :
    get_frequency "abc" "daily" =
      Except.error (PyError.invalidHistoryFrequency "abc") :=
  (get_frequency_invalid_iff "abc" "daily").mpr rfl

/-- C4: get_frequency resolves the alias daily as 1d and minute as 1m,
cross-corrects the requested data frequency (day unit with requested
minute resolves to daily, minute unit with requested daily resolves to
minute), and on the concrete inputs of the specification returns
magnitude 5 minute minute and magnitude 1 day daily. -/
theorem get_frequency_aliases_and_cross :
    (∀ df, get_frequency "daily" df = get_frequency "1d" df) ∧
    (∀ df, get_frequency "minute" df = get_frequency "1m" df) ∧
    (∀ freq c u r, get_frequency freq "minute" = Except.ok (c, u, r) →
      u.toLower = 'd' → r = "daily") ∧
    (∀ freq c u r, get_frequency freq "daily" = Except.ok (c, u, r) →
      u.toLower = 'm' → r = "minute") ∧
    get_frequency "5m" "daily" = Except.ok (5, 'm', "minute") ∧
    get_frequency "1d" "minute" = Except.ok (1, 'd', "daily") := by
  refine ⟨fun df => rfl, fun df => rfl, ?_, ?_, rfl, rfl⟩
  · intro freq c u r h hu
    unfold get_frequency at h
    split at h
    · exact absurd h (by simp)
    · rename_i g1 unit heq
      split at h
      · exact absurd h (by simp)
      · split at h
        · simp only [Except.ok.injEq, Prod.mk.injEq] at h
          simpa using h.2.2.symm
        · split at h
          · rename_i hnotd hm2
            simp only [Except.ok.injEq, Prod.mk.injEq] at h
            obtain ⟨-, hu2, -⟩ := h
            exact absurd (hu2 ▸ hu) hnotd
          · exact absurd h (by simp)
  · intro freq c u r h hu
    unfold get_frequency at h
    split at h
    · exact absurd h (by simp)
    · rename_i g1 unit heq
      split at h
      · exact absurd h (by simp)
      · split at h
        · rename_i hd
          simp only [Except.ok.injEq, Prod.mk.injEq] at h
          obtain ⟨-, hu2, -⟩ := h
          rw [hu2] at hd
          rw [hd] at hu
          exact absurd hu (by decide)
        · split at h
          · simp only [Except.ok.injEq, Prod.mk.injEq] at h
            simpa using h.2.2.symm
          · exact absurd h (by simp)

/-- C4 witness: the cross-correction conjuncts applied at 1d with requested
minute and at 5m with requested daily. -/
theorem get_frequency_aliases_and_cross_witness :
    get_frequency "1d" "minute" = Except.ok (1, 'd', "daily") ∧
      ("daily" : String) = "daily" ∧ ("minute" : String) = "minute" :=
  ⟨rfl,
   get_frequency_aliases_and_cross.2.2.1 "1d" 1 'd' "daily" rfl rfl,
   get_frequency_aliases_and_cross.2.2.2.1 "5m" 5 'm' "minute" rfl rfl⟩

/-- C8 counterexample: the input 0m resolves successfully to magnitude
zero, so not every returned FrequencySpec has a positive magnitude. -/
theorem get_frequency_zero_magnitude :
    get_frequency "0m" "minute" = Except.ok (0, 'm', "minute") := rfl

/-- C8 (amended): every FrequencySpec successfully returned by
get_frequency has a nonnegative integer magnitude (the regex forces group 1
to start with a digit, so the int conversion cannot see a sign), but zero is
attainable, so positivity fails. -/
theorem get_frequency_magnitude_nonneg :
    ∀ freq df c u r, get_frequency freq df = Except.ok (c, u, r) → 0 ≤ c := by
  intro freq df c u r h
  unfold get_frequency at h
  split at h
  · exact absurd h (by simp)
  · rename_i g1 unit heq
    split at h
    · exact absurd h (by simp)
    · rename_i n hp
      obtain ⟨cd, t, hg1, hcd⟩ := freqRegexMatch_head heq
      have hn : 0 ≤ n := pyIntParse_digit_head_nonneg hcd (hg1 ▸ hp)
      have hcn : c = n := by
        split at h
        · simp only [Except.ok.injEq, Prod.mk.injEq] at h
          exact h.1.symm
        · split at h
          · simp only [Except.ok.injEq, Prod.mk.injEq] at h
            exact h.1.symm
          · exact absurd h (by simp)
      exact hcn ▸ hn

/-- C8 witness: the nonnegativity theorem applied at the concrete input 5m
with requested daily frequency. -/
theorem get_frequency_magnitude_nonneg_witness : (0 : Int) ≤ 5 :=
  get_frequency_magnitude_nonneg "5m" "daily" 5 'm' "minute" rfl

/-! ## Claim theorems for resampling -/

/-- Every row of a resampled table comes from one grouped run. -/
theorem pdResample_mem {df : DataFrame} {c : Nat} {agg : String} {p : Nat × Int}
    (h : p ∈ pdResample df c agg) :
    ∃ g ∈ groupByBucket c df, p = (g.1 * c, aggList agg g.2) := by
  obtain ⟨g, hg, hp⟩ := List.mem_map.mp h
  exact ⟨g, hg, hp.symm⟩

/-- C5: for a candle size above 1 and a time-ordered table,
resample_history_df groups the rows into fixed candle-size-minute buckets
and reduces each bucket by the aggregation of the requested field: open
takes the first value of its bucket, high the maximum, low the minimum,
close the last value, volume the sum; every input row is covered by an
output bucket; and the concrete examples of the specification hold
(closes 1..5 at size 5 give close 5, opens 10..14 give open 10). -/
theorem resample_history_df_aggregates :
    ∀ (df : DataFrame) (c : Nat), 1 < c →
      List.Pairwise (fun a b => a.1 ≤ b.1) df →
      (∀ res, resample_history_df df c "open" = Except.ok res →
        ∀ p ∈ res, ∃ k, p.1 = k * c ∧ bucketMembers df c k ≠ [] ∧
          p.2 = (bucketMembers df c k).headD 0) ∧
      (∀ res, resample_history_df df c "high" = Except.ok res →
        ∀ p ∈ res, ∃ k, p.1 = k * c ∧ p.2 ∈ bucketMembers df c k ∧
          ∀ x ∈ bucketMembers df c k, x ≤ p.2) ∧
      (∀ res, resample_history_df df c "low" = Except.ok res →
        ∀ p ∈ res, ∃ k, p.1 = k * c ∧ p.2 ∈ bucketMembers df c k ∧
          ∀ x ∈ bucketMembers df c k, p.2 ≤ x) ∧
      (∀ res, resample_history_df df c "close" = Except.ok res →
        ∀ p ∈ res, ∃ k, p.1 = k * c ∧ bucketMembers df c k ≠ [] ∧
          p.2 = (bucketMembers df c k).getLastD 0) ∧
      (∀ res, resample_history_df df c "volume" = Except.ok res →
        ∀ p ∈ res, ∃ k, p.1 = k * c ∧ p.2 = (bucketMembers df c k).sum) ∧
      (∀ res, resample_history_df df c "close" = Except.ok res →
        ∀ q ∈ df, ∃ p ∈ res, p.1 = (q.1 / c) * c) ∧
      resample_history_df [(0, 1), (1, 2), (2, 3), (3, 4), (4, 5)] 5 "close" =
        Except.ok [(0, 5)] ∧
      resample_history_df [(0, 10), (1, 11), (2, 12), (3, 13), (4, 14)] 5 "open" =
        Except.ok [(0, 10)] := by
  intro df c hc hs
  obtain ⟨-, hsound, hcomplete⟩ := groupByBucket_sound c df hs
  have hopen : resample_history_df df c "open" =
      Except.ok (pdResample df c "first") := by
    unfold resample_history_df; rw [if_pos hc]; rfl
  have hhigh : resample_history_df df c "high" =
      Except.ok (pdResample df c "max") := by
    unfold resample_history_df; rw [if_pos hc]; rfl
  have hlow : resample_history_df df c "low" =
      Except.ok (pdResample df c "min") := by
    unfold resample_history_df; rw [if_pos hc]; rfl
  have hclose : resample_history_df df c "close" =
      Except.ok (pdResample df c "last") := by
    unfold resample_history_df; rw [if_pos hc]; rfl
  have hvolume : resample_history_df df c "volume" =
      Except.ok (pdResample df c "sum") := by
    unfold resample_history_df; rw [if_pos hc]; rfl
  refine ⟨?_, ?_, ?_, ?_, ?_, ?_, rfl, rfl⟩
  · intro res hres p hp
    rw [hopen] at hres
    obtain rfl : pdResample df c "first" = res := by simpa using hres
    obtain ⟨g, hg, hpg⟩ := pdResample_mem hp
    obtain ⟨hmem, hne⟩ := hsound g hg
    refine ⟨g.1, by rw [hpg], ?_, ?_⟩
    · rw [← hmem]; exact hne
    · rw [hpg]
      show aggList "first" g.2 = (bucketMembers df c g.1).headD 0
      rw [← hmem]
      rfl
  · intro res hres p hp
    rw [hhigh] at hres
    obtain rfl : pdResample df c "max" = res := by simpa using hres
    obtain ⟨g, hg, hpg⟩ := pdResample_mem hp
    obtain ⟨hmem, hne⟩ := hsound g hg
    obtain ⟨hin, hbd⟩ := listMax_spec g.2 hne
    refine ⟨g.1, by rw [hpg], ?_, ?_⟩
    · rw [hpg]
      show aggList "max" g.2 ∈ bucketMembers df c g.1
      rw [← hmem]
      exact hin
    · intro x hx
      rw [hpg]
      show x ≤ aggList "max" g.2
      exact hbd x (by rw [hmem]; exact hx)
  · intro res hres p hp
    rw [hlow] at hres
    obtain rfl : pdResample df c "min" = res := by simpa using hres
    obtain ⟨g, hg, hpg⟩ := pdResample_mem hp
    obtain ⟨hmem, hne⟩ := hsound g hg
    obtain ⟨hin, hbd⟩ := listMin_spec g.2 hne
    refine ⟨g.1, by rw [hpg], ?_, ?_⟩
    · rw [hpg]
      show aggList "min" g.2 ∈ bucketMembers df c g.1
      rw [← hmem]
      exact hin
    · intro x hx
      rw [hpg]
      show aggList "min" g.2 ≤ x
      exact hbd x (by rw [hmem]; exact hx)
  · intro res hres p hp
    rw [hclose] at hres
    obtain rfl : pdResample df c "last" = res := by simpa using hres
    obtain ⟨g, hg, hpg⟩ := pdResample_mem hp
    obtain ⟨hmem, hne⟩ := hsound g hg
    refine ⟨g.1, by rw [hpg], ?_, ?_⟩
    · rw [← hmem]; exact hne
    · rw [hpg]
      show aggList "last" g.2 = (bucketMembers df c g.1).getLastD 0
      rw [← hmem]
      rfl
  · intro res hres p hp
    rw [hvolume] at hres
    obtain rfl : pdResample df c "sum" = res := by simpa using hres
    obtain ⟨g, hg, hpg⟩ := pdResample_mem hp
    obtain ⟨hmem, -⟩ := hsound g hg
    refine ⟨g.1, by rw [hpg], ?_⟩
    rw [hpg]
    show aggList "sum" g.2 = (bucketMembers df c g.1).sum
    rw [← hmem]
    rfl
  · intro res hres q hq
    rw [hclose] at hres
    obtain rfl : pdResample df c "last" = res := by simpa using hres
    obtain ⟨g, hg, hgk⟩ := hcomplete q hq
    refine ⟨(g.1 * c, aggList "last" g.2), ?_, ?_⟩
    · exact List.mem_map.mpr ⟨g, hg, rfl⟩
    · simp [hgk]

/-- C5 witness: the aggregation theorem applied to the five-row table of
the specification at candle size 5. -/
theorem resample_history_df_aggregates_witness :
    (1 < 5) ∧
    List.Pairwise (fun a b => a.1 ≤ b.1)
      ([(0, 1), (1, 2), (2, 3), (3, 4), (4, 5)] : DataFrame) ∧
    resample_history_df [(0, 1), (1, 2), (2, 3), (3, 4), (4, 5)] 5 "close" =
      Except.ok [(0, 5)] :=
  ⟨by decide, by decide,
   (resample_history_df_aggregates [(0, 1), (1, 2), (2, 3), (3, 4), (4, 5)] 5
     (by decide) (by decide)).2.2.2.2.2.2.1⟩

/-- C6 counterexample: with candle size 1 an unrecognized field name does
not raise the invalid-field error; the table is returned unchanged because
the field is never inspected on that path. -/
theorem resample_invalid_field_candle_one :
    resample_history_df [(0, 3)] 1 "bogus" = Except.ok [(0, 3)] := rfl

/-- C6 (amended): for every table, every candle size greater than 1, and
every field name outside open, high, low, close and volume,
resample_history_df fails with the invalid-field ValueError; with candle
size 1 (or below), the field is not inspected and the table is returned
unchanged. -/
theorem resample_invalid_field_error :
    ∀ (df : DataFrame) (c : Nat) (field : String), 1 < c →
      field ≠ "open" → field ≠ "high" → field ≠ "low" → field ≠ "close" →
      field ≠ "volume" →
      resample_history_df df c field =
        Except.error (PyError.valueError "Invalid field.") := by
  intro df c field hc h1 h2 h3 h4 h5
  unfold resample_history_df
  rw [if_pos hc, if_neg h1, if_neg h2, if_neg h3, if_neg h4, if_neg h5]

/-- C6 witness: the amended theorem applied at candle size 2 with the
field name bogus. -/
theorem resample_invalid_field_error_witness :
    resample_history_df [(0, 3)] 2 "bogus" =
      Except.error (PyError.valueError "Invalid field.") :=
  resample_invalid_field_error [(0, 3)] 2 "bogus" (by decide) (by decide)
    (by decide) (by decide) (by decide) (by decide)

/-- C7: with candle size 1, resample_history_df returns the input table
unchanged for every table and every field name, including unrecognized
ones. -/
theorem resample_candle_one_identity :
    ∀ (df : DataFrame) (field : String),
      resample_history_df df 1 field = Except.ok df := by
  intro df field
  rfl

/-! ## Claim theorems for the symbol cache -/

/-- C1 counterexample: a stale cache file (three days old) with a failing
remote fetch: get_exchange_symbols propagates the transport error instead
of serving the stale cached content. -/
theorem stale_fetch_failure_raises :
    get_exchange_symbols "root" "bitfinex"
        ⟨some "cached", 259200, Except.error ()⟩ =
      Except.error PyError.urlError := rfl

/-- C1 (amended): when a refresh is due and the remote fetch fails, the
transport error propagates out of get_exchange_symbols, so the stale cached
content is NOT served; cached content is returned without any fetch exactly
when the file exists and no refresh is due. -/
theorem get_exchange_symbols_stale_behaviour :
    ∀ (root name : String) (fs : SymbolsFs) (content : String),
      fs.file = some content →
      (needsDownload fs = true → fs.download = Except.error () →
        get_exchange_symbols root name fs = Except.error PyError.urlError) ∧
      (needsDownload fs = false →
        get_exchange_symbols root name fs = Except.ok content) := by
  intro root name fs content hfile
  constructor
  · intro hneed hdl
    unfold get_exchange_symbols
    rw [hneed]
    simp only [if_true]
    unfold download_exchange_symbols
    rw [hdl]
  · intro hneed
    unfold get_exchange_symbols
    rw [hneed]
    simp only [Bool.false_eq_true, if_false]
    rw [hfile]

/-- C1 witness: the amended theorem applied to a three-day-old cache with
a failing fetch, and to a fresh cache. -/
theorem get_exchange_symbols_stale_behaviour_witness :
    (get_exchange_symbols "r" "e" ⟨some "x", 259200, Except.error ()⟩ =
      Except.error PyError.urlError) ∧
    (get_exchange_symbols "r" "e" ⟨some "x", 3600, Except.error ()⟩ =
      Except.ok "x") :=
  ⟨(get_exchange_symbols_stale_behaviour "r" "e" _ "x" rfl).1 rfl rfl,
   (get_exchange_symbols_stale_behaviour "r" "e" _ "x" rfl).2 rfl⟩

/-- C3 counterexample: a cache file 36 hours old (129600 seconds, strictly
more than one day) alongside a remote fetch that would succeed with new
content: the stale content is returned untouched, because the source
compares the whole-day component of the age (here 1) with 1, so no fetch is
attempted although the age exceeds 1 day. -/
theorem refresh_threshold_counterexample :
    (86400 : Int) < 129600 ∧
      get_exchange_symbols "root" "bitfinex"
          ⟨some "old", 129600, Except.ok "new"⟩ = Except.ok "old" :=
  ⟨by decide, rfl⟩

/-- C3 (amended): get_exchange_symbols fetches exactly when the file is
missing or the whole-day floor of its age exceeds 1 (age of two days or
more): below that threshold the cached content is returned with no fetch;
at or above it, a successful fetch overwrites and returns the new content
while a failed fetch propagates the transport error; consequently the
symbols-not-found error is unreachable, since a successful fetch always
materialises the file. -/
theorem get_exchange_symbols_behaviour :
    ∀ (root name : String) (fs : SymbolsFs),
      (∀ content, fs.file = some content →
        timedeltaDays fs.ageSeconds ≤ 1 →
        get_exchange_symbols root name fs = Except.ok content) ∧
      ((fs.file = none ∨ 1 < timedeltaDays fs.ageSeconds) →
        (∀ newContent, fs.download = Except.ok newContent →
          get_exchange_symbols root name fs = Except.ok newContent) ∧
        (fs.download = Except.error () →
          get_exchange_symbols root name fs = Except.error PyError.urlError)) ∧
      (∀ e f, get_exchange_symbols root name fs ≠
        Except.error (PyError.symbolsNotFound e f)) := by
  intro root name fs
  refine ⟨?_, ?_, ?_⟩
  · intro content hfile hage
    have hneed : needsDownload fs = false := by
      unfold needsDownload
      rw [hfile]
      simp only [Option.isNone_some, Bool.false_or]
      simpa using not_lt.mpr hage
    unfold get_exchange_symbols
    rw [hneed]
    simp only [Bool.false_eq_true, if_false]
    rw [hfile]
  · intro hdue
    have hneed : needsDownload fs = true := by
      unfold needsDownload
      rcases hdue with hnone | hage
      · rw [hnone]; simp
      · simp [hage]
    constructor
    · intro newContent hdl
      unfold get_exchange_symbols
      rw [hneed]
      simp only [if_true]
      unfold download_exchange_symbols
      rw [hdl]
    · intro hdl
      unfold get_exchange_symbols
      rw [hneed]
      simp only [if_true]
      unfold download_exchange_symbols
      rw [hdl]
  · intro e f
    unfold get_exchange_symbols
    cases hneed : needsDownload fs
    · simp only [Bool.false_eq_true, if_false]
      cases hfile : fs.file
      · exfalso
        unfold needsDownload at hneed
        rw [hfile] at hneed
        simp at hneed
      · simp
    · simp only [if_true]
      unfold download_exchange_symbols
      cases hdl : fs.download
      · simp
      · simp

/-- C3 witness: the behaviour theorem applied to a fresh file, to a
missing file with a successful fetch, and to a missing file with a failed
fetch. -/
theorem get_exchange_symbols_behaviour_witness :
    (get_exchange_symbols "r" "e" ⟨some "x", 3600, Except.error ()⟩ =
      Except.ok "x") ∧
    (get_exchange_symbols "r" "e" ⟨none, 0, Except.ok "new"⟩ =
      Except.ok "new") ∧
    (get_exchange_symbols "r" "e" ⟨some "old", 259200, Except.ok "new"⟩ =
      Except.ok "new") :=
  ⟨(get_exchange_symbols_behaviour "r" "e" _).1 "x" rfl (by decide),
   ((get_exchange_symbols_behaviour "r" "e" _).2.1 (Or.inl rfl)).1 "new" rfl,
   ((get_exchange_symbols_behaviour "r" "e" _).2.1 (Or.inr (by decide))).1 "new" rfl⟩

/-! ## Claim theorems for the algo key/value store -/

/-- C9 counterexample: when the csv backing file exists but its read fails
with a non-IOError exception (for example a pandas parser error),
get_algo_df propagates the exception instead of returning an empty table,
because the source catches IOError only; so the read operations can
raise. -/
theorem get_algo_df_parser_error_raises :
    get_algo_df "root" (fun _ => ReadOutcome.otherError) (some "algo") "key"
        none = Except.error PyError.parserError := rfl

/-- C9 (amended): get_algo_object never raises for any algorithm name,
key, sub-path and read outcome, and the degraded cases are pinned: a
missing pickle file and every read exception (IOError or not) yield None,
while a clean deserialisation yields the stored object.  get_algo_df, for a
non-null algorithm name, returns the empty table on a missing csv file and
on an IOError, returns the parsed table on a clean read, and never raises
provided every failing read raises IOError; a non-IOError read failure
propagates (shown by the counterexample). -/
theorem algo_getters_degrade :
    ∀ (α : Type) (root : String) (fsO : String → ReadOutcome α)
      (fsD : String → ReadOutcome DataFrame) (v : α) (t : DataFrame)
      (name : Option String) (aname key : String) (rel_path : Option String),
      (∃ r, get_algo_object root fsO name key rel_path = Except.ok r) ∧
      (get_algo_object root (fun _ => (ReadOutcome.missing : ReadOutcome α))
        (some aname) key rel_path = Except.ok none) ∧
      (get_algo_object root (fun _ => ReadOutcome.ok v) (some aname) key
        rel_path = Except.ok (some v)) ∧
      (get_algo_object root (fun _ => (ReadOutcome.ioError : ReadOutcome α))
        (some aname) key rel_path = Except.ok none) ∧
      (get_algo_object root (fun _ => (ReadOutcome.otherError : ReadOutcome α))
        (some aname) key rel_path = Except.ok none) ∧
      (get_algo_df root (fun _ => ReadOutcome.missing) (some aname) key
        rel_path = Except.ok DataFrame.empty) ∧
      (get_algo_df root (fun _ => ReadOutcome.ok t) (some aname) key
        rel_path = Except.ok t) ∧
      (get_algo_df root (fun _ => ReadOutcome.ioError) (some aname) key
        rel_path = Except.ok DataFrame.empty) ∧
      ((∀ f, fsD f ≠ ReadOutcome.otherError) →
        ∃ d, get_algo_df root fsD (some aname) key rel_path = Except.ok d) := by
  intro α root fsO fsD v t name aname key rel_path
  have hobj : ∀ o : ReadOutcome α, ∃ r, objectReadResult o = Except.ok r := by
    intro o
    cases o with
    | missing => exact ⟨none, rfl⟩
    | ok w => exact ⟨some w, rfl⟩
    | ioError => exact ⟨none, rfl⟩
    | otherError => exact ⟨none, rfl⟩
  have hdf : ∀ o : ReadOutcome DataFrame, o ≠ ReadOutcome.otherError →
      ∃ d, dfReadResult o = Except.ok d := by
    intro o ho
    cases o with
    | missing => exact ⟨DataFrame.empty, rfl⟩
    | ok w => exact ⟨w, rfl⟩
    | ioError => exact ⟨DataFrame.empty, rfl⟩
    | otherError => exact absurd rfl ho
  refine ⟨?_, rfl, rfl, rfl, rfl, rfl, rfl, rfl, ?_⟩
  · cases name with
    | none => exact ⟨none, rfl⟩
    | some n => exact hobj _
  · intro hno
    exact hdf _ (hno _)

/-- C9 witness: the degradation theorem applied to concrete stores: the
object read always raising a non-IOError still yields an ok result, a
missing object file yields None, an IOError on the csv yields the empty
table, and a csv store that only raises IOError satisfies the proviso of
the never-raises conjunct. -/
theorem algo_getters_degrade_witness :
    (∃ r, get_algo_object "r" (fun _ => (ReadOutcome.otherError : ReadOutcome Nat))
      (some "a") "k" none = Except.ok r) ∧
    (get_algo_object "r" (fun _ => (ReadOutcome.missing : ReadOutcome Nat))
      (some "a") "k" none = Except.ok none) ∧
    (get_algo_df "r" (fun _ => ReadOutcome.ioError) (some "a") "k" none =
      Except.ok DataFrame.empty) ∧
    (∃ d, get_algo_df "r" (fun _ => ReadOutcome.ioError) (some "a") "k" none =
      Except.ok d) :=
  ⟨(algo_getters_degrade Nat "r" (fun _ => ReadOutcome.otherError)
      (fun _ => ReadOutcome.ioError) 0 [] (some "a") "a" "k" none).1,
   (algo_getters_degrade Nat "r" (fun _ => ReadOutcome.otherError)
      (fun _ => ReadOutcome.ioError) 0 [] (some "a") "a" "k" none).2.1,
   (algo_getters_degrade Nat "r" (fun _ => ReadOutcome.otherError)
      (fun _ => ReadOutcome.ioError) 0 [] (some "a") "a" "k" none).2.2.2.2.2.2.2.1,
   (algo_getters_degrade Nat "r" (fun _ => ReadOutcome.otherError)
      (fun _ => ReadOutcome.ioError) 0 [] (some "a") "a" "k" none).2.2.2.2.2.2.2.2
     (fun f => by simp)⟩

/-- C10: the null-name guard covers only get_algo_object: with a null
algorithm name it returns None for every filesystem state (no file is
consulted), while get_algo_df has no such short-circuit and fails with the
TypeError that os.path.join raises on None instead of returning an empty
table. -/
theorem null_algo_name_guard :
    ∀ (α : Type) (root : String) (fsO : String → ReadOutcome α)
      (fsD : String → ReadOutcome DataFrame) (key : String)
      (rel_path : Option String),
      get_algo_object root fsO none key rel_path = Except.ok none ∧
      get_algo_df root fsD none key rel_path = Except.error PyError.typeError := by
  intro α root fsO fsD key rel_path
  exact ⟨rfl, rfl⟩

end ExchangeUtils
